import Mathlib

/-
  Shallow embedding of the cx88_sdr driver (files cx88_sdr.h, cx88_sdr_core.c,
  cx88_sdr_v4l2.c): the DMA RISC program builder, the SRAM/CDT setup, the
  producer-position normalization, and the ring-buffer read path, together
  with theorems about them.

  Machine integers are modelled as Nat with explicit `% 2 ^ 32` where 32-bit
  wrap-around matters.  The kernel page size is the standard 4 KiB page
  (PAGE_SHIFT = 12), as on the platforms this PCI driver targets.
-/

namespace Cx88Sdr

/-! ### Constants from cx88_sdr.h (and the kernel page geometry) -/

def PAGE_SHIFT : Nat := 12

def PAGE_SIZE : Nat := 1 <<< PAGE_SHIFT

def CLUSTER_BUF_NUM : Nat := 8

def CLUSTER_BUF_SIZE : Nat := 2048

def VBI_DMA_SIZE : Nat := 64 * 1024 * 1024

def VBI_DMA_PAGES : Nat := VBI_DMA_SIZE >>> PAGE_SHIFT

def VBI_DMA_BUF_NUM : Nat := VBI_DMA_SIZE / CLUSTER_BUF_SIZE

def CX_SRAM_BASE : Nat := 0x180000

def CHN24_CMDS_BASE : Nat := 0x180100

def RISC_INST_QUEUE : Nat := CX_SRAM_BASE + 0x0800

def CDT_BASE : Nat := CX_SRAM_BASE + 0x1000

def CLUSTER_BUFFER_BASE : Nat := CX_SRAM_BASE + 0x4000

def MO_DMA24_PTR2 : Nat := 0x3000cc

def MO_DMA24_CNT1 : Nat := 0x30010c

def MO_DMA24_CNT2 : Nat := 0x30014c

def RISC_WRITE : Nat := 0x10000000

def RISC_JUMP : Nat := 0x70000000

def RISC_SYNC : Nat := 0x80000000

theorem PAGE_SIZE_eq : PAGE_SIZE = 4096 := by decide

theorem VBI_DMA_PAGES_eq : VBI_DMA_PAGES = 16384 := by decide

/-! ### ProducerPositionOracle

`cx88sdr_read` normalizes the raw MO_VBI_GPCNT value by
`gp_cnt = (!gp_cnt) ? (VBI_DMA_PAGES - 1) : (gp_cnt - 1)`
(cx88_sdr_v4l2.c lines 89-90 and 121-122). -/

def gpcntNormalize (gp_cnt : Nat) : Nat :=
  if gp_cnt = 0 then VBI_DMA_PAGES - 1 else gp_cnt - 1

/-! ### Session state and open

`cx88sdr_open` records `dev->initial_page = mmio_ioread32(dev, MO_VBI_GPCNT) - 1`
(cx88_sdr_v4l2.c line 58); `initial_page` is a `uint32_t`, so the subtraction
wraps modulo 2^32 when the raw counter reads 0.  A freshly opened file starts
with file position `*pos = 0`. -/

def cx88sdr_open_initial_page (raw : Nat) : Nat :=
  (raw + (2 ^ 32 - 1)) % 2 ^ 32

structure ReadState where
  initial_page : Nat
  pages : Nat → Nat → Nat
  pos : Nat

def openSession (raw : Nat) (pages : Nat → Nat → Nat) : ReadState :=
  { initial_page := cx88sdr_open_initial_page raw, pages := pages, pos := 0 }

/-- Follows the spec's words (section 4.5) for comparison with the code:
`startPage = oracle.currentWrittenPage() - 1 (mod N)`, where
`currentWrittenPage` is the normalized counter of section 4.4. -/
def specStartPage (raw : Nat) : Nat :=
  (gpcntNormalize raw + (VBI_DMA_PAGES - 1)) % VBI_DMA_PAGES

/-- Constant page contents used to build concrete witness states. -/
def pagesConst7 : Nat → Nat → Nat := fun _ _ => 7

/-! ### Claim C1 -/

/-- Claim C1: for every raw hardware counter value `k` in `[0, N)` with
`N = VBI_DMA_PAGES`, the normalization performed by `cx88sdr_read` maps
`k = 0` to `N - 1` and every `k > 0` to `k - 1`; the result is a valid page
index and is exactly one page behind the raw "about to write" position,
i.e. the last fully written page. -/
theorem c1_normalization (k : Nat) (h : k < VBI_DMA_PAGES) :
    gpcntNormalize k = (if k = 0 then VBI_DMA_PAGES - 1 else k - 1)
    ∧ gpcntNormalize k < VBI_DMA_PAGES
    ∧ (gpcntNormalize k + 1) % VBI_DMA_PAGES = k := by
  refine ⟨rfl, ?_, ?_⟩ <;>
  · unfold gpcntNormalize
    rw [VBI_DMA_PAGES_eq] at *
    split_ifs with h0 <;> omega

/-- Witness for C1 at the concrete raw counter value 5. -/
theorem c1_normalization_witness :
    gpcntNormalize 5 = (if 5 = 0 then VBI_DMA_PAGES - 1 else 5 - 1)
    ∧ gpcntNormalize 5 < VBI_DMA_PAGES
    ∧ (gpcntNormalize 5 + 1) % VBI_DMA_PAGES = 5 :=
  c1_normalization 5 (by decide)

/-! ### Claim C2 -/

/-- Claim C2 counterexample: at raw counter value 5 the page recorded by
`cx88sdr_open` is (modulo N) page 4 — the last fully written page — and not
page 3 = `currentWrittenPage() - 1 (mod N)` as the claim states. -/
theorem c2_counterexample :
    (openSession 5 pagesConst7).initial_page % VBI_DMA_PAGES ≠ specStartPage 5 := by
  decide

/-- Claim C2 as amended: for every value of the raw hardware counter, open
records `startPage = raw - 1` in 32-bit arithmetic, which modulo N is
`(raw + N - 1) % N` — the last fully written page itself, one page behind the
page the device is about to write (not two); and the session's logical offset
starts at 0.  For raw values below N this equals the normalized counter
`gpcntNormalize raw`. -/
theorem c2_amended_open (raw : Nat) (pages : Nat → Nat → Nat) (h : raw < 2 ^ 32) :
    (openSession raw pages).pos = 0
    ∧ (openSession raw pages).initial_page % VBI_DMA_PAGES
        = (raw + (VBI_DMA_PAGES - 1)) % VBI_DMA_PAGES
    ∧ (raw < VBI_DMA_PAGES →
        (openSession raw pages).initial_page % VBI_DMA_PAGES = gpcntNormalize raw) := by
  refine ⟨rfl, ?_, ?_⟩
  · show cx88sdr_open_initial_page raw % VBI_DMA_PAGES = _
    unfold cx88sdr_open_initial_page
    rw [VBI_DMA_PAGES_eq]
    have hdvd : (16384 : Nat) ∣ 2 ^ 32 := by norm_num
    rw [Nat.mod_mod_of_dvd _ hdvd]
    omega
  · intro hN
    show cx88sdr_open_initial_page raw % VBI_DMA_PAGES = _
    unfold cx88sdr_open_initial_page gpcntNormalize
    rw [VBI_DMA_PAGES_eq] at *
    have hdvd : (16384 : Nat) ∣ 2 ^ 32 := by norm_num
    rw [Nat.mod_mod_of_dvd _ hdvd]
    split_ifs with h0 <;> omega

/-- Witness for the amended C2 at the concrete raw counter value 5. -/
theorem c2_amended_open_witness :
    (openSession 5 pagesConst7).pos = 0
    ∧ (openSession 5 pagesConst7).initial_page % VBI_DMA_PAGES
        = (5 + (VBI_DMA_PAGES - 1)) % VBI_DMA_PAGES
    ∧ (openSession 5 pagesConst7).initial_page % VBI_DMA_PAGES = gpcntNormalize 5 :=
  ⟨(c2_amended_open 5 pagesConst7 (by decide)).1,
   (c2_amended_open 5 pagesConst7 (by decide)).2.1,
   (c2_amended_open 5 pagesConst7 (by decide)).2.2 (by decide)⟩

/-! ### ProgramBuilder: cx88sdr_make_risc_instructions (cx88_sdr_core.c 178-203)

The generator emits 32-bit words into the RISC instruction buffer:
one sync word, then per page `i` two write instructions (an opcode word and
an address word each) targeting `pgvec_phy[i]` and
`pgvec_phy[i] + CLUSTER_BUF_SIZE`, then a jump opcode word and its target
`risc_inst_phy + 4`.  `irqt` is incremented and masked with 0x1ff once per
loop iteration; the interrupt bit (bit 24) goes onto the second write word
when `irqt == 0`, and the count field (bits 16-17) of the second write is 1
for interior pages and 3 for the final page. -/

def riscWrite1Word : Nat := RISC_WRITE ||| CLUSTER_BUF_SIZE ||| (3 <<< 26)

def riscWrite2Word (n i irqt : Nat) : Nat :=
  RISC_WRITE ||| CLUSTER_BUF_SIZE ||| (3 <<< 26) |||
    ((if irqt = 0 then 1 else 0) <<< 24) ||| ((if i < n - 1 then 1 else 3) <<< 16)

inductive RiscInstr where
  | sync (word : Nat)
  | write (word : Nat) (addr : Nat)
  | jump (word : Nat) (addr : Nat)
deriving DecidableEq

def riscPagesAux (pgphy : Nat → Nat) (n : Nat) : Nat → Nat → Nat → List RiscInstr
  | 0, _, _ => []
  | rem + 1, i, irqt =>
    let irqt' := (irqt + 1) &&& 0x1ff
    RiscInstr.write riscWrite1Word (pgphy i)
      :: RiscInstr.write (riscWrite2Word n i irqt') (pgphy i + CLUSTER_BUF_SIZE)
      :: riscPagesAux pgphy n rem (i + 1) irqt'

def cx88sdr_make_risc_instructions (pgphy : Nat → Nat) (risc_inst_phy n : Nat) :
    List RiscInstr :=
  RiscInstr.sync (RISC_SYNC ||| (3 <<< 16))
    :: (riscPagesAux pgphy n n 0 0 ++ [RiscInstr.jump RISC_JUMP (risc_inst_phy + 4)])

theorem land511_eq_mod (x : Nat) : x &&& 0x1ff = x % 512 := by
  have h : (0x1ff : Nat) = 2 ^ 9 - 1 := by norm_num
  rw [h, Nat.and_pow_two_sub_one_eq_mod]

theorem riscPagesAux_length (pgphy : Nat → Nat) (n : Nat) :
    ∀ rem i irqt, (riscPagesAux pgphy n rem i irqt).length = 2 * rem := by
  intro rem
  induction rem with
  | zero => intro i irqt; simp [riscPagesAux]
  | succ rem ih =>
    intro i irqt
    simp [riscPagesAux, ih]
    omega

theorem riscPagesAux_get (pgphy : Nat → Nat) (n : Nat) :
    ∀ rem i irqt j, j < rem →
      (riscPagesAux pgphy n rem i irqt).get? (2 * j)
          = some (RiscInstr.write riscWrite1Word (pgphy (i + j)))
      ∧ (riscPagesAux pgphy n rem i irqt).get? (2 * j + 1)
          = some (RiscInstr.write (riscWrite2Word n (i + j) ((irqt + j + 1) % 512))
                  (pgphy (i + j) + CLUSTER_BUF_SIZE)) := by
  intro rem
  induction rem with
  | zero => intro i irqt j hj; omega
  | succ rem ih =>
    intro i irqt j hj
    match j with
    | 0 =>
      constructor
      · simp [riscPagesAux]
      · simp [riscPagesAux, land511_eq_mod]
    | j + 1 =>
      have hrec := ih (i + 1) ((irqt + 1) &&& 0x1ff) j (by omega)
      have hi : i + 1 + j = i + (j + 1) := by omega
      rw [hi] at hrec
      rw [land511_eq_mod] at hrec
      have hm : ((irqt + 1) % 512 + j + 1) % 512 = (irqt + (j + 1) + 1) % 512 := by
        omega
      rw [hm] at hrec
      constructor
      · rw [show 2 * (j + 1) = (2 * j + 1) + 1 by omega]
        simp only [riscPagesAux, List.get?_cons_succ]
        rw [land511_eq_mod]
        exact hrec.1
      · rw [show 2 * (j + 1) + 1 = ((2 * j + 1) + 1) + 1 by omega]
        simp only [riscPagesAux, List.get?_cons_succ]
        rw [land511_eq_mod]
        exact hrec.2

theorem program_get_write (pgphy : Nat → Nat) (phy n i : Nat) (h : i < n) :
    (cx88sdr_make_risc_instructions pgphy phy n).get? (1 + 2 * i)
        = some (RiscInstr.write riscWrite1Word (pgphy i))
    ∧ (cx88sdr_make_risc_instructions pgphy phy n).get? (2 + 2 * i)
        = some (RiscInstr.write (riscWrite2Word n i ((i + 1) % 512))
                (pgphy i + CLUSTER_BUF_SIZE)) := by
  have hlen := riscPagesAux_length pgphy n n 0 0
  have hg := riscPagesAux_get pgphy n n 0 0 i h
  unfold cx88sdr_make_risc_instructions
  constructor
  · rw [show 1 + 2 * i = (2 * i) + 1 by omega, List.get?_cons_succ,
      List.get?_append (by omega)]
    simpa using hg.1
  · rw [show 2 + 2 * i = ((2 * i + 1)) + 1 by omega, List.get?_cons_succ,
      List.get?_append (by omega)]
    simpa using hg.2

/-! ### Claim C3 -/

/-- Claim C3: for every page count `n > 0` (the driver uses
`n = VBI_DMA_PAGES`), the generated microprogram has exactly `1 + 2n + 1`
instructions: a Sync first, then for each page `i` in ring order two
half-page Write instructions at addresses `pgvec_phy[i]` and
`pgvec_phy[i] + CLUSTER_BUF_SIZE`, then a final Jump back to
`risc_inst_phy + 4`. -/
theorem c3_program_shape (pgphy : Nat → Nat) (phy n : Nat) (h : 0 < n) :
    (cx88sdr_make_risc_instructions pgphy phy n).length = 1 + 2 * n + 1
    ∧ (cx88sdr_make_risc_instructions pgphy phy n).get? 0
        = some (RiscInstr.sync (RISC_SYNC ||| (3 <<< 16)))
    ∧ (cx88sdr_make_risc_instructions pgphy phy n).get? (1 + 2 * n)
        = some (RiscInstr.jump RISC_JUMP (phy + 4))
    ∧ ∀ i, i < n →
        (cx88sdr_make_risc_instructions pgphy phy n).get? (1 + 2 * i)
            = some (RiscInstr.write riscWrite1Word (pgphy i))
        ∧ (cx88sdr_make_risc_instructions pgphy phy n).get? (2 + 2 * i)
            = some (RiscInstr.write (riscWrite2Word n i ((i + 1) % 512))
                    (pgphy i + CLUSTER_BUF_SIZE)) := by
  have hlen := riscPagesAux_length pgphy n n 0 0
  refine ⟨?_, rfl, ?_, ?_⟩
  · simp [cx88sdr_make_risc_instructions, hlen]
    omega
  · unfold cx88sdr_make_risc_instructions
    rw [show 1 + 2 * n = (2 * n) + 1 by omega, List.get?_cons_succ,
      List.get?_append_right (by omega)]
    simp [hlen]
  · intro i hi
    exact program_get_write pgphy phy n i hi

/-- Fixed page-address map used in concrete witness programs. -/
def exPgphy : Nat → Nat := fun i => 4096 * i

/-- Witness for C3: the single-page program, checked at its four positions. -/
theorem c3_program_shape_witness :
    (cx88sdr_make_risc_instructions exPgphy 0 1).length = 1 + 2 * 1 + 1
    ∧ (cx88sdr_make_risc_instructions exPgphy 0 1).get? 0
        = some (RiscInstr.sync (RISC_SYNC ||| (3 <<< 16)))
    ∧ (cx88sdr_make_risc_instructions exPgphy 0 1).get? (1 + 2 * 1)
        = some (RiscInstr.jump RISC_JUMP (0 + 4))
    ∧ (cx88sdr_make_risc_instructions exPgphy 0 1).get? (1 + 2 * 0)
        = some (RiscInstr.write riscWrite1Word (exPgphy 0)) := by
  obtain ⟨h1, h2, h3, h4⟩ := c3_program_shape exPgphy 0 1 (by decide)
  exact ⟨h1, h2, h3, (h4 0 (by decide)).1⟩

/-! ### Claim C4 -/

theorem testBit24_write1 : Nat.testBit riscWrite1Word 24 = false := by decide

theorem testBit24_write2 (n i t : Nat) :
    Nat.testBit (riscWrite2Word n i t) 24 = true ↔ t = 0 := by
  unfold riscWrite2Word
  split_ifs with h1 h2 <;> simp [h1] <;> decide

/-- Formalization of claim C4 as stated: the transfer counter would increment
once per half-page Write instruction (the Write at program index `j` is the
`j`-th half-page transfer), so the interrupt bit would be set exactly on the
Writes whose index is a multiple of 512. -/
def c4IrqEvery512 (prog : List RiscInstr) : Prop :=
  ∀ j w a, prog.get? j = some (RiscInstr.write w a) →
    (Nat.testBit w 24 = true ↔ j % 512 = 0)

/-- Claim C4 counterexample: in the driver's program (N = VBI_DMA_PAGES),
the Write instruction at program index 512 — the 512th half-page transfer,
the second Write of page 255 — does not carry the interrupt bit, because the
counter increments only once per page, so it reads 256 there, not 0. -/
theorem c4_counterexample :
    ¬ c4IrqEvery512 (cx88sdr_make_risc_instructions exPgphy 0 VBI_DMA_PAGES) := by
  intro h
  have hg := (program_get_write exPgphy 0 VBI_DMA_PAGES 255 (by decide)).2
  have h512 := h (2 + 2 * 255) _ _ hg
  rw [testBit24_write2] at h512
  omega

/-- Claim C4 as amended: the running counter increments once per page (once
per pair of half-page Write instructions) and wraps modulo 512, so for page
`i` it reads `(i + 1) % 512`; the interrupt-request bit (bit 24) is raised on
the second Write instruction of page `i` exactly when that counter is 0, i.e.
once every 512 pages (1024 half-page transfers), and never on the first Write
of a pair. -/
theorem c4_irq_cadence (pgphy : Nat → Nat) (phy n i : Nat) (h : i < n) :
    (cx88sdr_make_risc_instructions pgphy phy n).get? (1 + 2 * i)
        = some (RiscInstr.write riscWrite1Word (pgphy i))
    ∧ Nat.testBit riscWrite1Word 24 = false
    ∧ (cx88sdr_make_risc_instructions pgphy phy n).get? (2 + 2 * i)
        = some (RiscInstr.write (riscWrite2Word n i ((i + 1) % 512))
                (pgphy i + CLUSTER_BUF_SIZE))
    ∧ (Nat.testBit (riscWrite2Word n i ((i + 1) % 512)) 24 = true
        ↔ (i + 1) % 512 = 0) :=
  ⟨(program_get_write pgphy phy n i h).1, testBit24_write1,
   (program_get_write pgphy phy n i h).2, testBit24_write2 n i ((i + 1) % 512)⟩

/-- Witness for the amended C4 at page 0 of the single-page program. -/
theorem c4_irq_cadence_witness :
    (cx88sdr_make_risc_instructions exPgphy 0 1).get? (1 + 2 * 0)
        = some (RiscInstr.write riscWrite1Word (exPgphy 0))
    ∧ Nat.testBit riscWrite1Word 24 = false
    ∧ (cx88sdr_make_risc_instructions exPgphy 0 1).get? (2 + 2 * 0)
        = some (RiscInstr.write (riscWrite2Word 1 0 ((0 + 1) % 512))
                (exPgphy 0 + CLUSTER_BUF_SIZE))
    ∧ (Nat.testBit (riscWrite2Word 1 0 ((0 + 1) % 512)) 24 = true
        ↔ (0 + 1) % 512 = 0) :=
  c4_irq_cadence exPgphy 0 1 0 (by decide)

/-! ### Claim C10 -/

def riscInstrWords : RiscInstr → Nat
  | .sync _ => 1
  | .write _ _ => 2
  | .jump _ _ => 2

def riscProgramBytes (prog : List RiscInstr) : Nat :=
  4 * (prog.map riscInstrWords).sum

/-- The allocation made by cx88sdr_alloc_risc_inst_buffer
(cx88_sdr_core.c line 120). -/
def risc_inst_buff_size : Nat := VBI_DMA_BUF_NUM * CLUSTER_BUF_NUM + PAGE_SIZE

theorem riscPagesAux_words (pgphy : Nat → Nat) (n : Nat) :
    ∀ rem i irqt, ((riscPagesAux pgphy n rem i irqt).map riscInstrWords).sum
        = 4 * rem := by
  intro rem
  induction rem with
  | zero => intro i irqt; simp [riscPagesAux]
  | succ rem ih =>
    intro i irqt
    simp [riscPagesAux, riscInstrWords, ih]
    omega

theorem riscProgramBytes_eq (pgphy : Nat → Nat) (phy n : Nat) :
    riscProgramBytes (cx88sdr_make_risc_instructions pgphy phy n)
        = 4 + 16 * n + 8 := by
  have hw := riscPagesAux_words pgphy n n 0 0
  unfold riscProgramBytes cx88sdr_make_risc_instructions
  simp only [List.map_cons, List.map_append, List.sum_cons, List.sum_append, hw,
    riscInstrWords]
  simp only [List.map_cons, List.map_nil, List.sum_cons, List.sum_nil, riscInstrWords]
  omega

/-- Claim C10: the microprogram generator emits 4 bytes for the Sync word,
16 bytes per page (two Write instructions of two words each) and 8 bytes for
the final Jump, and that total stays within the allocated instruction buffer
of VBI_DMA_BUF_NUM * CLUSTER_BUF_NUM + PAGE_SIZE bytes. -/
theorem c10_risc_buffer_bound (pgphy : Nat → Nat) (phy : Nat) :
    riscProgramBytes (cx88sdr_make_risc_instructions pgphy phy VBI_DMA_PAGES)
        = 4 + 16 * VBI_DMA_PAGES + 8
    ∧ riscProgramBytes (cx88sdr_make_risc_instructions pgphy phy VBI_DMA_PAGES)
        ≤ risc_inst_buff_size := by
  refine ⟨riscProgramBytes_eq pgphy phy VBI_DMA_PAGES, ?_⟩
  rw [riscProgramBytes_eq pgphy phy VBI_DMA_PAGES, VBI_DMA_PAGES_eq]
  simp only [risc_inst_buff_size, VBI_DMA_BUF_NUM, VBI_DMA_SIZE, CLUSTER_BUF_SIZE,
    CLUSTER_BUF_NUM, PAGE_SIZE_eq]
  norm_num

/-! ### StreamReader: cx88sdr_read (cx88_sdr_v4l2.c 77-126)

The read path is modelled with explicit state passing.  `copy_to_user` is
modelled by a predicate `userOk` on destination byte offsets (the copy of a
range succeeds iff every destination byte is ok); the bytes delivered to the
caller are accumulated in a list.  Successive MO_VBI_GPCNT reads are the
values `gpReads 0, gpReads 1, ...`; the blocking re-poll loop gets a fuel
parameter, with `ReadOutcome.outOfFuel` marking an unfinished blocking wait
(a model artifact: the C code spins unboundedly). -/

def pnumOf (initial_page pos : Nat) : Nat :=
  ((initial_page + ((pos % VBI_DMA_SIZE) >>> PAGE_SHIFT)) % 2 ^ 32) % VBI_DMA_PAGES

def lenOf (pos size : Nat) : Nat :=
  let l := if pos % PAGE_SIZE ≠ 0 then PAGE_SIZE - pos % PAGE_SIZE else PAGE_SIZE
  if l > size then size else l

theorem lenOf_pos (pos size : Nat) (h : size ≠ 0) : 0 < lenOf pos size := by
  have hm : pos % 4096 < 4096 := Nat.mod_lt pos (by omega)
  simp only [lenOf, PAGE_SIZE_eq]
  split_ifs <;> omega

theorem lenOf_le_size (pos size : Nat) : lenOf pos size ≤ size := by
  have hm : pos % 4096 < 4096 := Nat.mod_lt pos (by omega)
  simp only [lenOf, PAGE_SIZE_eq]
  split_ifs <;> omega

def copyOkRange (userOk : Nat → Bool) (start len : Nat) : Bool :=
  (List.range len).all fun k => userOk (start + k)

def pageBytes (pages : Nat → Nat → Nat) (p off len : Nat) : List Nat :=
  (List.range len).map fun k => pages p (off + k)

def zeroRegion (pages : Nat → Nat → Nat) (p off len : Nat) : Nat → Nat → Nat :=
  fun q o => if q = p ∧ off ≤ o ∧ o < off + len then 0 else pages q o

/-- One iteration of the inner copy loop of `cx88sdr_read` (v4l2.c 96-116):
copy `len` bytes out of the current page starting at `*pos % PAGE_SIZE`
(failing if any destination byte is bad), then zero the copied region and
advance `*pos`.  Returns the new state and the bytes delivered, or `none`
when the copy faulted. -/
def copySubStep (userOk : Nat → Bool) (st : ReadState) (size result : Nat) :
    Option (ReadState × List Nat) :=
  if copyOkRange userOk result (lenOf st.pos size) = true then
    some (⟨st.initial_page,
           zeroRegion st.pages (pnumOf st.initial_page st.pos) (st.pos % PAGE_SIZE)
             (lenOf st.pos size),
           st.pos + lenOf st.pos size⟩,
          pageBytes st.pages (pnumOf st.initial_page st.pos) (st.pos % PAGE_SIZE)
            (lenOf st.pos size))
  else none

def stepStateD (userOk : Nat → Bool) (st : ReadState) (size result : Nat) : ReadState :=
  match copySubStep userOk st size result with
  | some (st', _) => st'
  | none => st

def stepBytesD (userOk : Nat → Bool) (st : ReadState) (size result : Nat) : List Nat :=
  match copySubStep userOk st size result with
  | some (_, ds) => ds
  | none => []

/-- The inner loop `while ((size > 0) && (pnum != gp_cnt))` of `cx88sdr_read`.
On a copy fault it returns `Except.error` carrying the state as of the start
of the failing sub-step (the C code returns -EFAULT before the memset and
before advancing `*pos`).  Otherwise it returns the final state, the
remaining `size`, the updated `result`, and the delivered bytes. -/
def innerCopyLoop (userOk : Nat → Bool) (gp : Nat) (st : ReadState)
    (size result : Nat) (acc : List Nat) :
    Except ReadState (ReadState × Nat × Nat × List Nat) :=
  if size = 0 ∨ pnumOf st.initial_page st.pos = gp then
    Except.ok (st, size, result, acc)
  else
    let len := lenOf st.pos size
    if copyOkRange userOk result len = true then
      innerCopyLoop userOk gp
        ⟨st.initial_page,
         zeroRegion st.pages (pnumOf st.initial_page st.pos) (st.pos % PAGE_SIZE) len,
         st.pos + len⟩
        (size - len) (result + len)
        (acc ++ pageBytes st.pages (pnumOf st.initial_page st.pos) (st.pos % PAGE_SIZE) len)
    else
      Except.error st
termination_by size
decreasing_by
  rename_i hcond _
  have hsz : size ≠ 0 := by
    intro h0
    exact hcond (Or.inl h0)
  exact Nat.sub_lt (Nat.pos_of_ne_zero hsz) (lenOf_pos st.pos size hsz)

inductive ReadOutcome where
  | ret (st : ReadState) (result : Nat) (delivered : List Nat)
  | fault (st : ReadState)
  | outOfFuel

def ReadOutcome.isRet : ReadOutcome → Bool
  | .ret _ _ _ => true
  | _ => false

def ReadOutcome.bytesD : ReadOutcome → Nat
  | .ret _ r _ => r
  | _ => 0

def ReadOutcome.deliveredD : ReadOutcome → List Nat
  | .ret _ _ ds => ds
  | _ => []

/-- The outer `while (size)` loop of `cx88sdr_read` (v4l2.c 95-124): run the
inner copy loop against the current normalized counter; if bytes remain, a
non-blocking reader returns what it copied so far, a blocking reader
re-reads MO_VBI_GPCNT (read number `t`) and retries. -/
def readLoop (nonblock : Bool) (userOk : Nat → Bool) (gpReads : Nat → Nat)
    (fuel t gp : Nat) (st : ReadState) (size result : Nat) (acc : List Nat) :
    ReadOutcome :=
  if size = 0 then ReadOutcome.ret st result acc
  else
    match innerCopyLoop userOk gp st size result acc with
    | Except.error stF => ReadOutcome.fault stF
    | Except.ok (st', size', result', acc') =>
      if size' = 0 then ReadOutcome.ret st' result' acc'
      else if nonblock = true then ReadOutcome.ret st' result' acc'
      else
        match fuel with
        | 0 => ReadOutcome.outOfFuel
        | fuel' + 1 =>
          readLoop nonblock userOk gpReads fuel' (t + 1)
            (gpcntNormalize (gpReads t)) st' size' result' acc'
termination_by fuel

/-- `cx88sdr_read`: read the counter (normalized), take the early
non-blocking return when the reader has caught up with the producer
(v4l2.c 92-93), otherwise run the copy loop. -/
def cx88sdr_read (nonblock : Bool) (userOk : Nat → Bool) (gpReads : Nat → Nat)
    (fuel : Nat) (st : ReadState) (size : Nat) : ReadOutcome :=
  if pnumOf st.initial_page st.pos = gpcntNormalize (gpReads 0) ∧ nonblock = true then
    ReadOutcome.ret st 0 []
  else
    readLoop nonblock userOk gpReads fuel 1 (gpcntNormalize (gpReads 0)) st size 0 []

/-! ### Helper lemmas about the read model -/

theorem copyOkRange_allOk (userOk : Nat → Bool) (hu : ∀ j, userOk j = true)
    (start len : Nat) : copyOkRange userOk start len = true := by
  unfold copyOkRange
  simp [List.all_eq_true, hu]

theorem pageBytes_length (pages : Nat → Nat → Nat) (p off len : Nat) :
    (pageBytes pages p off len).length = len := by
  simp [pageBytes]

theorem pageBytes_zeroRegion (pages : Nat → Nat → Nat) (p off len : Nat) :
    pageBytes (zeroRegion pages p off len) p off len = List.replicate len 0 := by
  unfold pageBytes zeroRegion
  rw [List.eq_replicate]
  refine ⟨by simp, ?_⟩
  intro b hb
  simp only [List.mem_map, List.mem_range] at hb
  obtain ⟨k, hk, hbk⟩ := hb
  rw [← hbk]
  have hcond : p = p ∧ off ≤ off + k ∧ off + k < off + len := ⟨rfl, by omega, by omega⟩
  simp [hcond]

theorem innerCopyLoop_exit (userOk : Nat → Bool) (gp : Nat) (st : ReadState)
    (size result : Nat) (acc : List Nat)
    (h : size = 0 ∨ pnumOf st.initial_page st.pos = gp) :
    innerCopyLoop userOk gp st size result acc = Except.ok (st, size, result, acc) := by
  rw [innerCopyLoop]
  rw [if_pos h]

theorem innerCopyLoop_fault (userOk : Nat → Bool) (gp : Nat) (st : ReadState)
    (size result : Nat) (acc : List Nat)
    (h1 : ¬(size = 0 ∨ pnumOf st.initial_page st.pos = gp))
    (h2 : copyOkRange userOk result (lenOf st.pos size) = false) :
    innerCopyLoop userOk gp st size result acc = Except.error st := by
  rw [innerCopyLoop]
  rw [if_neg h1]
  simp only [h2]
  simp

theorem innerCopyLoop_step (userOk : Nat → Bool) (gp : Nat) (st : ReadState)
    (size result : Nat) (acc : List Nat)
    (h1 : ¬(size = 0 ∨ pnumOf st.initial_page st.pos = gp))
    (h2 : copyOkRange userOk result (lenOf st.pos size) = true) :
    innerCopyLoop userOk gp st size result acc
      = innerCopyLoop userOk gp
          ⟨st.initial_page,
           zeroRegion st.pages (pnumOf st.initial_page st.pos) (st.pos % PAGE_SIZE)
             (lenOf st.pos size),
           st.pos + lenOf st.pos size⟩
          (size - lenOf st.pos size) (result + lenOf st.pos size)
          (acc ++ pageBytes st.pages (pnumOf st.initial_page st.pos) (st.pos % PAGE_SIZE)
            (lenOf st.pos size)) := by
  conv_lhs => rw [innerCopyLoop]
  rw [if_neg h1]
  simp only [h2]
  simp

theorem innerCopyLoop_allOk (userOk : Nat → Bool) (hu : ∀ j, userOk j = true) (gp : Nat) :
    ∀ size (st : ReadState) (result : Nat) (acc : List Nat),
      ∃ st' size' result' acc',
        innerCopyLoop userOk gp st size result acc = Except.ok (st', size', result', acc')
        ∧ result' = result + (size - size')
        ∧ size' ≤ size
        ∧ acc'.length = acc.length + (size - size')
        ∧ (size ≠ 0 → pnumOf st.initial_page st.pos ≠ gp → size' < size) := by
  intro size
  induction size using Nat.strong_induction_on with
  | _ size ih =>
    intro st result acc
    by_cases h : size = 0 ∨ pnumOf st.initial_page st.pos = gp
    · refine ⟨st, size, result, acc, innerCopyLoop_exit userOk gp st size result acc h,
        by omega, Nat.le_refl _, by omega, ?_⟩
      intro hs hp
      cases h with
      | inl h0 => exact absurd h0 hs
      | inr hg => exact absurd hg hp
    · have h2 : copyOkRange userOk result (lenOf st.pos size) = true :=
        copyOkRange_allOk userOk hu _ _
      have hsz : size ≠ 0 := fun h0 => h (Or.inl h0)
      have hlen1 : 0 < lenOf st.pos size := lenOf_pos st.pos size hsz
      have hlen2 : lenOf st.pos size ≤ size := lenOf_le_size st.pos size
      have hstep := innerCopyLoop_step userOk gp st size result acc h h2
      obtain ⟨st', size', result', acc', heq, hres, hszle, hacc, _⟩ :=
        ih (size - lenOf st.pos size) (by omega)
          ⟨st.initial_page,
           zeroRegion st.pages (pnumOf st.initial_page st.pos) (st.pos % PAGE_SIZE)
             (lenOf st.pos size),
           st.pos + lenOf st.pos size⟩
          (result + lenOf st.pos size)
          (acc ++ pageBytes st.pages (pnumOf st.initial_page st.pos) (st.pos % PAGE_SIZE)
            (lenOf st.pos size))
      rw [List.length_append, pageBytes_length] at hacc
      refine ⟨st', size', result', acc', by rw [hstep]; exact heq, by omega, by omega,
        by omega, ?_⟩
      intro _ _
      omega

theorem readLoop_ok_eq (nonblock : Bool) (userOk : Nat → Bool) (gpReads : Nat → Nat)
    (fuel t gp : Nat) (st : ReadState) (size result : Nat) (acc : List Nat)
    (st' : ReadState) (size' result' : Nat) (acc' : List Nat)
    (hsz : ¬ size = 0)
    (hinner : innerCopyLoop userOk gp st size result acc
        = Except.ok (st', size', result', acc')) :
    readLoop nonblock userOk gpReads fuel t gp st size result acc
      = (if size' = 0 then ReadOutcome.ret st' result' acc'
         else if nonblock = true then ReadOutcome.ret st' result' acc'
         else match fuel with
              | 0 => ReadOutcome.outOfFuel
              | fuel' + 1 =>
                readLoop nonblock userOk gpReads fuel' (t + 1)
                  (gpcntNormalize (gpReads t)) st' size' result' acc') := by
  rw [readLoop, if_neg hsz, hinner]

theorem readLoop_err_eq (nonblock : Bool) (userOk : Nat → Bool) (gpReads : Nat → Nat)
    (fuel t gp : Nat) (st stF : ReadState) (size result : Nat) (acc : List Nat)
    (hsz : ¬ size = 0)
    (hinner : innerCopyLoop userOk gp st size result acc = Except.error stF) :
    readLoop nonblock userOk gpReads fuel t gp st size result acc
      = ReadOutcome.fault stF := by
  rw [readLoop, if_neg hsz, hinner]

theorem readLoop_nonblock_ne (userOk : Nat → Bool) (gpReads : Nat → Nat)
    (fuel t gp : Nat) (st : ReadState) (size result : Nat) (acc : List Nat) :
    readLoop true userOk gpReads fuel t gp st size result acc
      ≠ ReadOutcome.outOfFuel := by
  intro hEq
  rw [readLoop] at hEq
  split at hEq
  · exact ReadOutcome.noConfusion hEq
  · split at hEq
    · exact ReadOutcome.noConfusion hEq
    · split at hEq
      · exact ReadOutcome.noConfusion hEq
      · simp at hEq

/-! ### Claim C5 -/

/-- Claim C5: for non-blocking reads (the driver encodes `WouldBlock` as an
immediate return of 0 bytes): if the reader's page equals the producer's
last-written page before any byte is copied, the call returns 0 bytes with
the state unchanged; the call never reaches the blocking re-poll (never
`outOfFuel`, for any fuel); and when data is available and every copy
succeeds, the call returns a positive byte count — the bytes copied so far,
never a zero-byte `WouldBlock` result. -/
theorem c5_nonblocking_read (userOk : Nat → Bool) (gpReads : Nat → Nat) (fuel : Nat)
    (st : ReadState) (size : Nat) :
    (pnumOf st.initial_page st.pos = gpcntNormalize (gpReads 0) →
      cx88sdr_read true userOk gpReads fuel st size = ReadOutcome.ret st 0 [])
    ∧ cx88sdr_read true userOk gpReads fuel st size ≠ ReadOutcome.outOfFuel
    ∧ (pnumOf st.initial_page st.pos ≠ gpcntNormalize (gpReads 0) → 0 < size →
        (∀ j, userOk j = true) →
        (cx88sdr_read true userOk gpReads fuel st size).isRet = true
        ∧ 1 ≤ (cx88sdr_read true userOk gpReads fuel st size).bytesD
        ∧ (cx88sdr_read true userOk gpReads fuel st size).bytesD ≤ size
        ∧ ((cx88sdr_read true userOk gpReads fuel st size).deliveredD).length
            = (cx88sdr_read true userOk gpReads fuel st size).bytesD) := by
  refine ⟨?_, ?_, ?_⟩
  · intro hpg
    unfold cx88sdr_read
    rw [if_pos ⟨hpg, rfl⟩]
  · unfold cx88sdr_read
    split
    · intro hEq
      exact ReadOutcome.noConfusion hEq
    · exact readLoop_nonblock_ne userOk gpReads fuel 1 (gpcntNormalize (gpReads 0))
        st size 0 []
  · intro hp hs hu
    unfold cx88sdr_read
    rw [if_neg (fun hc => hp hc.1)]
    obtain ⟨st', size', result', acc', heq, hres, hszle, hacc, hlt⟩ :=
      innerCopyLoop_allOk userOk hu (gpcntNormalize (gpReads 0)) size st 0 []
    have hlt' := hlt (by omega) hp
    rw [readLoop_ok_eq true userOk gpReads fuel 1 (gpcntNormalize (gpReads 0))
      st size 0 [] st' size' result' acc' (by omega) heq]
    simp only [List.length_nil, Nat.zero_add] at hacc
    by_cases hz : size' = 0
    · rw [if_pos hz]
      simp only [ReadOutcome.isRet, ReadOutcome.bytesD, ReadOutcome.deliveredD]
      refine ⟨trivial, by omega, by omega, by omega⟩
    · rw [if_neg hz, if_pos rfl]
      simp only [ReadOutcome.isRet, ReadOutcome.bytesD, ReadOutcome.deliveredD]
      refine ⟨trivial, by omega, by omega, by omega⟩

/-! ### Concrete states used by witnesses -/

def allUserOk : Nat → Bool := fun _ => true

def noUserOk : Nat → Bool := fun _ => false

def gpReadsConst2 : Nat → Nat := fun _ => 2

def stEx : ReadState := ⟨0, pagesConst7, 0⟩

/-- Witness for C5: a fresh session (page 0), producer at normalized page 1,
non-blocking 3-byte read with all copies succeeding. -/
theorem c5_nonblocking_read_witness :
    (cx88sdr_read true allUserOk gpReadsConst2 0 stEx 3).isRet = true
    ∧ 1 ≤ (cx88sdr_read true allUserOk gpReadsConst2 0 stEx 3).bytesD
    ∧ (cx88sdr_read true allUserOk gpReadsConst2 0 stEx 3).bytesD ≤ 3
    ∧ ((cx88sdr_read true allUserOk gpReadsConst2 0 stEx 3).deliveredD).length
        = (cx88sdr_read true allUserOk gpReadsConst2 0 stEx 3).bytesD :=
  (c5_nonblocking_read allUserOk gpReadsConst2 0 stEx 3).2.2 (by decide) (by decide)
    (fun _ => rfl)

/-! ### Claim C6 -/

/-- Claim C6: every successful copy sub-step of `cx88sdr_read` delivers the
bytes of the current page region and immediately zeroes exactly that region
(v4l2.c 104-108): afterwards the page region reads back as all zeros, so a
re-read of the same page offset before the producer overwrites it delivers
zero bytes; and the inner copy loop advances by exactly this sub-step. -/
theorem c6_tombstone (userOk : Nat → Bool) (gp : Nat) (st : ReadState)
    (size result : Nat) (acc : List Nat)
    (hsz : size ≠ 0) (hp : pnumOf st.initial_page st.pos ≠ gp)
    (hok : copyOkRange userOk result (lenOf st.pos size) = true) :
    stepBytesD userOk st size result
        = pageBytes st.pages (pnumOf st.initial_page st.pos) (st.pos % PAGE_SIZE)
            (lenOf st.pos size)
    ∧ pageBytes (stepStateD userOk st size result).pages
          (pnumOf st.initial_page st.pos) (st.pos % PAGE_SIZE) (lenOf st.pos size)
        = List.replicate (lenOf st.pos size) 0
    ∧ stepBytesD userOk { stepStateD userOk st size result with pos := st.pos } size result
        = List.replicate (lenOf st.pos size) 0
    ∧ innerCopyLoop userOk gp st size result acc
        = innerCopyLoop userOk gp (stepStateD userOk st size result)
            (size - lenOf st.pos size) (result + lenOf st.pos size)
            (acc ++ stepBytesD userOk st size result) := by
  have hcs : copySubStep userOk st size result = some
      (⟨st.initial_page,
        zeroRegion st.pages (pnumOf st.initial_page st.pos) (st.pos % PAGE_SIZE)
          (lenOf st.pos size),
        st.pos + lenOf st.pos size⟩,
       pageBytes st.pages (pnumOf st.initial_page st.pos) (st.pos % PAGE_SIZE)
         (lenOf st.pos size)) := by
    unfold copySubStep
    rw [if_pos hok]
  have hbytes : stepBytesD userOk st size result
      = pageBytes st.pages (pnumOf st.initial_page st.pos) (st.pos % PAGE_SIZE)
          (lenOf st.pos size) := by
    unfold stepBytesD
    rw [hcs]
  have hstate : stepStateD userOk st size result
      = ⟨st.initial_page,
         zeroRegion st.pages (pnumOf st.initial_page st.pos) (st.pos % PAGE_SIZE)
           (lenOf st.pos size),
         st.pos + lenOf st.pos size⟩ := by
    unfold stepStateD
    rw [hcs]
  refine ⟨hbytes, ?_, ?_, ?_⟩
  · rw [hstate]
    exact pageBytes_zeroRegion st.pages (pnumOf st.initial_page st.pos)
      (st.pos % PAGE_SIZE) (lenOf st.pos size)
  · rw [hstate]
    simp only [stepBytesD, copySubStep]
    rw [if_pos hok]
    exact pageBytes_zeroRegion st.pages (pnumOf st.initial_page st.pos)
      (st.pos % PAGE_SIZE) (lenOf st.pos size)
  · rw [hstate, hbytes]
    exact innerCopyLoop_step userOk gp st size result acc
      (by rw [not_or]; exact ⟨hsz, hp⟩) hok

/-- Witness for C6: a fresh session (page 0), producer at normalized page 1,
sub-step of a 3-byte read from all-7 pages. -/
theorem c6_tombstone_witness :
    stepBytesD allUserOk stEx 3 0
        = pageBytes stEx.pages (pnumOf stEx.initial_page stEx.pos)
            (stEx.pos % PAGE_SIZE) (lenOf stEx.pos 3)
    ∧ pageBytes (stepStateD allUserOk stEx 3 0).pages
          (pnumOf stEx.initial_page stEx.pos) (stEx.pos % PAGE_SIZE) (lenOf stEx.pos 3)
        = List.replicate (lenOf stEx.pos 3) 0
    ∧ stepBytesD allUserOk { stepStateD allUserOk stEx 3 0 with pos := stEx.pos } 3 0
        = List.replicate (lenOf stEx.pos 3) 0
    ∧ innerCopyLoop allUserOk 1 stEx 3 0 []
        = innerCopyLoop allUserOk 1 (stepStateD allUserOk stEx 3 0)
            (3 - lenOf stEx.pos 3) (0 + lenOf stEx.pos 3)
            ([] ++ stepBytesD allUserOk stEx 3 0) :=
  c6_tombstone allUserOk 1 stEx 3 0 [] (by decide) (by decide) (by decide)

/-! ### Claim C7 -/

/-- Claim C7: when a copy into the caller's buffer fails, the read aborts
immediately with a fault: the inner loop returns the state exactly as it was
at the start of the failing sub-step (offset not advanced, page region not
zeroed), and the whole call surfaces the fault — the bytes copied by earlier
sub-steps are not reported as a successful count. -/
theorem c7_fault_abort :
    (∀ (userOk : Nat → Bool) (gp : Nat) (st : ReadState) (size result : Nat)
        (acc : List Nat),
      size ≠ 0 → pnumOf st.initial_page st.pos ≠ gp →
      copyOkRange userOk result (lenOf st.pos size) = false →
      innerCopyLoop userOk gp st size result acc = Except.error st)
    ∧ (∀ (nonblock : Bool) (userOk : Nat → Bool) (gpReads : Nat → Nat) (fuel : Nat)
        (st stF : ReadState) (size : Nat),
      innerCopyLoop userOk (gpcntNormalize (gpReads 0)) st size 0 [] = Except.error stF →
      cx88sdr_read nonblock userOk gpReads fuel st size = ReadOutcome.fault stF) := by
  constructor
  · intro userOk gp st size result acc hsz hp hfail
    exact innerCopyLoop_fault userOk gp st size result acc
      (by rw [not_or]; exact ⟨hsz, hp⟩) hfail
  · intro nonblock userOk gpReads fuel st stF size herr
    have hno : ¬(size = 0 ∨ pnumOf st.initial_page st.pos = gpcntNormalize (gpReads 0)) := by
      intro hor
      rw [innerCopyLoop_exit userOk _ st size 0 [] hor] at herr
      exact Except.noConfusion herr
    rw [not_or] at hno
    unfold cx88sdr_read
    rw [if_neg (fun hc => hno.2 hc.1)]
    exact readLoop_err_eq nonblock userOk gpReads fuel 1 _ st stF size 0 [] hno.1 herr

/-- Witness for C7: a fresh session, producer ahead, every copy failing. -/
theorem c7_fault_abort_witness :
    innerCopyLoop noUserOk (gpcntNormalize (gpReadsConst2 0)) stEx 3 0 []
        = Except.error stEx
    ∧ cx88sdr_read true noUserOk gpReadsConst2 0 stEx 3 = ReadOutcome.fault stEx := by
  have h1 := c7_fault_abort.1 noUserOk (gpcntNormalize (gpReadsConst2 0)) stEx 3 0 []
    (by decide) (by decide) (by decide)
  exact ⟨h1, c7_fault_abort.2 true noUserOk gpReadsConst2 0 stEx stEx 3 h1⟩

/-! ### Claim C8 -/

/-- Claim C8: for every blocking mode, copy behavior, producer trace and
cursor state, a read of 0 bytes returns 0 immediately with the state — cursor
offset and all page contents — unchanged and nothing delivered. -/
theorem c8_zero_length (nonblock : Bool) (userOk : Nat → Bool) (gpReads : Nat → Nat)
    (fuel : Nat) (st : ReadState) :
    cx88sdr_read nonblock userOk gpReads fuel st 0 = ReadOutcome.ret st 0 [] := by
  unfold cx88sdr_read
  split
  · rfl
  · rw [readLoop, if_pos rfl]

/-! ### ChannelDescriptorTable: cx88sdr_sram_setup (cx88_sdr_core.c 73-98)

The setup is modelled as the ordered list of (register or SRAM address,
value) writes it performs.  The CDT loop
`for (i = 0; i < numbuf; i++, buff += buffsize) mmio_iowrite32(dev, cdt + 16 * i, buff)`
is the accumulating recursion `cdtWrites`.  `cx88sdr_probe` calls the setup
with numbuf = CLUSTER_BUF_NUM, buffsize = CLUSTER_BUF_SIZE,
buffptr = CLUSTER_BUFFER_BASE, cdtptr = CDT_BASE (cx88_sdr_core.c 288-289). -/

def cdtWrites (cdtptr buffsize : Nat) : Nat → Nat → Nat → List (Nat × Nat)
  | 0, _, _ => []
  | rem + 1, i, buff =>
    (cdtptr + 16 * i, buff) :: cdtWrites cdtptr buffsize rem (i + 1) (buff + buffsize)

def cx88sdr_sram_setup (risc_inst_phy numbuf buffsize buffptr cdtptr : Nat) :
    List (Nat × Nat) :=
  cdtWrites cdtptr buffsize numbuf 0 buffptr
  ++ [(CHN24_CMDS_BASE + 0, risc_inst_phy),
      (CHN24_CMDS_BASE + 4, cdtptr),
      (CHN24_CMDS_BASE + 8, numbuf * 2),
      (CHN24_CMDS_BASE + 12, RISC_INST_QUEUE),
      (CHN24_CMDS_BASE + 16, 0x40),
      (MO_DMA24_PTR2, cdtptr),
      (MO_DMA24_CNT1, (buffsize >>> 3) - 1),
      (MO_DMA24_CNT2, numbuf * 2)]

theorem cdtWrites_eq_map (cdtptr buffsize : Nat) :
    ∀ rem i buff, cdtWrites cdtptr buffsize rem i buff
      = (List.range rem).map
          (fun j => (cdtptr + 16 * (i + j), buff + j * buffsize)) := by
  intro rem
  induction rem with
  | zero => intro i buff; simp [cdtWrites]
  | succ rem ih =>
    intro i buff
    rw [cdtWrites, ih, List.range_succ_eq_map]
    simp only [List.map_cons, List.map_map]
    congr 1
    · simp
    · apply List.map_congr_left
      intro j hj
      simp only [Function.comp_apply, Prod.mk.injEq]
      constructor
      · omega
      · rw [Nat.succ_mul]
        omega

/-! ### Claim C9 -/

/-- Claim C9: the channel-descriptor setup, as invoked from probe, writes for
each slot `i` in `[0, CLUSTER_BUF_NUM)` the slot address
`CLUSTER_BUFFER_BASE + i * CLUSTER_BUF_SIZE` at byte offset `16 * i` from
`CDT_BASE`, and registers with the device the doubled slot count
`CLUSTER_BUF_NUM * 2` (in the CMDS block and in MO_DMA24_CNT2), the per-slot
size in transfer quanta minus one `(CLUSTER_BUF_SIZE >>> 3) - 1`
(in MO_DMA24_CNT1), and the instruction program's base address `p`
(first word of the CMDS block). -/
theorem c9_sram_setup (p : Nat) :
    (cx88sdr_sram_setup p CLUSTER_BUF_NUM CLUSTER_BUF_SIZE CLUSTER_BUFFER_BASE
        CDT_BASE).take CLUSTER_BUF_NUM
      = (List.range CLUSTER_BUF_NUM).map
          (fun i => (CDT_BASE + 16 * i, CLUSTER_BUFFER_BASE + i * CLUSTER_BUF_SIZE))
    ∧ (CHN24_CMDS_BASE + 8, CLUSTER_BUF_NUM * 2)
        ∈ cx88sdr_sram_setup p CLUSTER_BUF_NUM CLUSTER_BUF_SIZE CLUSTER_BUFFER_BASE
            CDT_BASE
    ∧ (MO_DMA24_CNT2, CLUSTER_BUF_NUM * 2)
        ∈ cx88sdr_sram_setup p CLUSTER_BUF_NUM CLUSTER_BUF_SIZE CLUSTER_BUFFER_BASE
            CDT_BASE
    ∧ (MO_DMA24_CNT1, (CLUSTER_BUF_SIZE >>> 3) - 1)
        ∈ cx88sdr_sram_setup p CLUSTER_BUF_NUM CLUSTER_BUF_SIZE CLUSTER_BUFFER_BASE
            CDT_BASE
    ∧ (CHN24_CMDS_BASE + 0, p)
        ∈ cx88sdr_sram_setup p CLUSTER_BUF_NUM CLUSTER_BUF_SIZE CLUSTER_BUFFER_BASE
            CDT_BASE := by
  unfold cx88sdr_sram_setup
  have hmap := cdtWrites_eq_map CDT_BASE CLUSTER_BUF_SIZE CLUSTER_BUF_NUM 0
    CLUSTER_BUFFER_BASE
  refine ⟨?_, ?_, ?_, ?_, ?_⟩
  · rw [hmap]
    rw [List.take_left' (by simp [CLUSTER_BUF_NUM])]
    apply List.map_congr_left
    intro j hj
    simp
  all_goals simp [List.mem_append]

end Cx88Sdr
